import Mathlib

/-!
Shallow embedding of the esp32-wifi-sniffer repository (Rust) in Lean 4,
covering the station-side sniffer callback (src/sniffer.rs), the MQTT
publisher payload construction (src/mqtt.rs), and the server-side ingestor
and device store (src/bin/web-gui.rs).  Machine integers are modelled as
Nat/Int with explicit reduction modulo 2^w where wraparound matters.
-/

namespace Sniffer

/-- Model of sniffer.rs MacAddress: a wrapper around 6 raw bytes
(each byte a Nat < 256). -/
structure MacAddress where
  bytes : List Nat
deriving DecidableEq, Repr

/-- Model of MacAddress::is_broadcast: all six bytes are 0xFF. -/
def MacAddress.is_broadcast (m : MacAddress) : Bool :=
  m.bytes == [0xFF, 0xFF, 0xFF, 0xFF, 0xFF, 0xFF]

/-- Model of MacAddress::is_multicast: least-significant bit of byte 0 set.
On the Rust side this is self.0[0] & 0x01 != 0. -/
def MacAddress.is_multicast (m : MacAddress) : Bool :=
  match m.bytes with
  | b0 :: _ => b0 % 2 != 0
  | [] => false

/-- Event constructed by the sniffer callback at sniffer.rs:143-148.  The
source constructs a struct literal with a field named mac holding the raw
source_mac.0 bytes (6 bytes); no hash is computed anywhere in the station
code.  (The struct declared in mqtt.rs names this field mac_hash with type
[u8; 32]; the mismatch is recorded by the C1 theorem.) -/
structure SnifferEvent where
  mac : List Nat
  rssi : Int
  channel : Nat
  timestamp : Nat
deriving DecidableEq, Repr

/-- State of the three station-side counters, all u32 in the source
(PACKET_COUNT, SENT_COUNT, DROPPED_COUNT in sniffer.rs). -/
structure CbState where
  packet_count : Nat
  sent_count : Nat
  dropped_count : Nat
deriving DecidableEq, Repr

/-- The all-zero counter state (the initial values in sniffer.rs). -/
def initState : CbState := ⟨0, 0, 0⟩

/-- One received frame as seen by the callback: the driver metadata
(rx_ctrl.sig_len, rx_ctrl.rssi, rx_ctrl.channel), the payload bytes, and
the value of esp_timer_get_time at this invocation. -/
structure Frame where
  sig_len : Nat
  payload : List Nat
  rssi : Int
  channel : Nat
  timestamp : Nat
deriving DecidableEq, Repr

/-- Runtime environment of one callback invocation: whether
EVENT_SENDER.try_lock() succeeds, whether a sender has been installed in
the global slot, and whether sender.try_send succeeds (channel not full). -/
structure CbEnv where
  lock_ok : Bool
  sender_set : Bool
  send_ok : Bool
deriving DecidableEq, Repr

/-- SEND_RATE constant from sniffer.rs. -/
def SEND_RATE : Nat := 50

/-- Word size of the u32 counters. -/
def U32 : Nat := 2 ^ 32

/-- Source MAC of a frame: addr2 of the Ieee80211MacHeader, the six bytes
at offsets 10..16 of the payload (sniffer.rs:124-125). -/
def Frame.source_mac (f : Frame) : MacAddress :=
  ⟨(f.payload.drop 10).take 6⟩

/-- Model of promiscuous_rx_callback (sniffer.rs:94-166) on a non-null
buffer.  Returns the new counter state and the event handed to the
channel (some e exactly when try_send succeeded).  Mirrors the source
order: length filter, source extraction, broadcast/multicast filter,
counter increment, rate limit, try_lock, sender check, try_send. -/
def promiscuous_rx_callback (st : CbState) (f : Frame) (env : CbEnv) :
    CbState × Option SnifferEvent :=
  if f.sig_len < 24 then
    (st, none)
  else
    let source_mac := f.source_mac
    if source_mac.is_broadcast || source_mac.is_multicast then
      (st, none)
    else
      let count := st.packet_count
      let st1 : CbState := { st with packet_count := (count + 1) % U32 }
      if count % SEND_RATE == 0 then
        if env.lock_ok then
          if env.sender_set then
            let event : SnifferEvent := ⟨source_mac.bytes, f.rssi, f.channel, f.timestamp⟩
            if env.send_ok then
              ({ st1 with sent_count := (st1.sent_count + 1) % U32 }, some event)
            else
              ({ st1 with dropped_count := (st1.dropped_count + 1) % U32 }, none)
          else (st1, none)
        else (st1, none)
      else (st1, none)

/-- Whether a frame passes the three filters of the callback (this is the
acceptance condition under which the packet counter is incremented). -/
def passesFilters (f : Frame) : Bool :=
  24 ≤ f.sig_len && !(f.source_mac.is_broadcast || f.source_mac.is_multicast)

/-- Run the callback over a list of (frame, environment) pairs, collecting
the events that were handed to the channel. -/
def runSniffer (st : CbState) : List (Frame × CbEnv) → CbState × List SnifferEvent
  | [] => (st, [])
  | (f, env) :: rest =>
    let r1 := promiscuous_rx_callback st f env
    let r2 := runSniffer r1.1 rest
    (r2.1, match r1.2 with | some e => e :: r2.2 | none => r2.2)

end Sniffer

namespace Mqtt

/-- Model of the DeviceEvent struct declared in mqtt.rs:26-31: the field
mac_hash has type [u8; 32] (32 bytes), and the remaining fields are the
RSSI (i8), channel (u8) and timestamp (u64). -/
structure DeviceEvent where
  mac_hash : List Nat
  rssi : Int
  channel : Nat
  timestamp : Nat
deriving DecidableEq, Repr

/-- MQTT_TOPIC_PREFIX constant from mqtt.rs. -/
def MQTT_TOPIC_PREFIX : List Char := "sniffer".data

/-- QoS levels of the esp-idf MQTT client. -/
inductive QoS where
  | AtMostOnce
  | AtLeastOnce
  | ExactlyOnce
deriving DecidableEq, Repr

/-- Decimal digit accumulation, mirroring the standard Display formatting
of Rust unsigned integers (no sign, no leading zeros, 0 printed as 0).
The first argument is structural fuel; n + 1 steps always suffice for the
value n since the value shrinks by a factor of 10 per step. -/
def natCharsAux : Nat → Nat → List Char → List Char
  | 0, _, acc => acc
  | fuel + 1, n, acc =>
    if n < 10 then Nat.digitChar n :: acc
    else natCharsAux fuel (n / 10) (Nat.digitChar (n % 10) :: acc)

/-- Decimal rendering of a Nat, as Rust {} for u8/u64. -/
def natChars (n : Nat) : List Char := natCharsAux (n + 1) n []

/-- Decimal rendering of an Int, as Rust {} for i8: a leading minus sign
for negative values, then the absolute value in decimal. -/
def intChars (i : Int) : List Char :=
  if i < 0 then '-' :: natChars i.natAbs else natChars i.toNat

/-- Formatting of one byte as {:02x}: two lowercase hex digits
(Nat.digitChar yields 0-9 then lowercase a-f for values below 16). -/
def byteHexChars (b : Nat) : List Char :=
  [Nat.digitChar (b / 16), Nat.digitChar (b % 16)]

/-- The mac_hex string built at mqtt.rs:115-118: each of the bytes of
event.mac_hash rendered as {:02x}, concatenated. -/
def macHexChars (mac_hash : List Nat) : List Char :=
  (mac_hash.map byteHexChars).flatten

/-- The payload_str built at mqtt.rs:122-125: the JSON object with keys
mac_hash, rssi, channel, timestamp, station in that order. -/
def payloadStr (e : DeviceEvent) (station_id : String) : List Char :=
  "\x7b\"mac_hash\":\"".data ++ macHexChars e.mac_hash
  ++ "\",\"rssi\":".data ++ intChars e.rssi
  ++ ",\"channel\":".data ++ natChars e.channel
  ++ ",\"timestamp\":".data ++ natChars e.timestamp
  ++ ",\"station\":\"".data ++ station_id.data
  ++ "\"\x7d".data

/-- Everything of payload_str except its final closing brace, used to
reason about truncation: payloadStr = payloadBody ++ [closing brace]. -/
def payloadBody (e : DeviceEvent) (station_id : String) : List Char :=
  "\x7b\"mac_hash\":\"".data ++ macHexChars e.mac_hash
  ++ "\",\"rssi\":".data ++ intChars e.rssi
  ++ ",\"channel\":".data ++ natChars e.channel
  ++ ",\"timestamp\":".data ++ natChars e.timestamp
  ++ ",\"station\":\"".data ++ station_id.data
  ++ "\"".data

/-- A call to client.enqueue as issued by publish_event: topic, QoS,
retained flag and the payload bytes actually passed (payload[..len]). -/
structure PublishCall where
  topic : List Char
  qos : QoS
  retained : Bool
  payload : List Char
deriving DecidableEq, Repr

/-- Model of MqttPublisher::publish_event (mqtt.rs:113-149): the formatted
JSON is copied into a 200-byte buffer with len = min(payload_str.len, 200)
and the slice payload[..len] is enqueued on topic
MQTT_TOPIC_PREFIX/station_id/device with QoS AtMostOnce, retained false. -/
def publish_event (e : DeviceEvent) (station_id : String) : PublishCall :=
  let s := payloadStr e station_id
  let len := min s.length 200
  { topic := MQTT_TOPIC_PREFIX ++ "/".data ++ station_id.data ++ "/device".data
    qos := QoS.AtMostOnce
    retained := false
    payload := s.take len }

/-- A concrete event whose hash field holds 32 zero bytes. -/
def e0demo : DeviceEvent := ⟨List.replicate 32 0, -10, 1, 0⟩

/-- A 200-character station id, long enough to overflow the 200-byte
payload buffer. -/
def sidLong : String := String.mk (List.replicate 200 'a')

end Mqtt

namespace WebGui

/-- JSON values, the target of serde_json deserialization at
web-gui.rs:312.  Numbers are modelled as integers (the integer fields of
MqttDeviceEvent are the only numeric fields the ingestor reads). -/
inductive Json where
  | null
  | bool (b : Bool)
  | num (n : Int)
  | str (s : String)
  | arr (elems : List Json)
  | obj (fields : List (String × Json))

/-- Model of the MqttDeviceEvent struct (web-gui.rs:105-112): mac_hash and
station are strings, rssi is an i8, channel a u8, timestamp a u64. -/
structure MqttDeviceEvent where
  mac_hash : String
  rssi : Int
  channel : Nat
  timestamp : Nat
  station : String
deriving DecidableEq, Repr

/-- Accumulator for the derived serde deserializer of MqttDeviceEvent:
which fields have been seen so far. -/
structure ParseAcc where
  mac_hash : Option String
  rssi : Option Int
  channel : Option Nat
  timestamp : Option Nat
  station : Option String
deriving DecidableEq, Repr

/-- Processing of a single JSON object field by the derived deserializer:
a known key must not repeat and its value must fit the declared machine
type (i8 in [-128,127], u8 in [0,255], u64 in [0, 2^64)); unknown keys
are ignored (no deny_unknown_fields on the struct). -/
def fieldStep (acc : ParseAcc) (kv : String × Json) : Option ParseAcc :=
  match kv with
  | (k, v) =>
    if k = "mac_hash" then
      match acc.mac_hash, v with
      | none, Json.str s => some { acc with mac_hash := some s }
      | _, _ => none
    else if k = "rssi" then
      match acc.rssi, v with
      | none, Json.num n =>
        if -128 ≤ n ∧ n ≤ 127 then some { acc with rssi := some n } else none
      | _, _ => none
    else if k = "channel" then
      match acc.channel, v with
      | none, Json.num n =>
        if 0 ≤ n ∧ n ≤ 255 then some { acc with channel := some n.toNat } else none
      | _, _ => none
    else if k = "timestamp" then
      match acc.timestamp, v with
      | none, Json.num n =>
        if 0 ≤ n ∧ n < 2 ^ 64 then some { acc with timestamp := some n.toNat } else none
      | _, _ => none
    else if k = "station" then
      match acc.station, v with
      | none, Json.str s => some { acc with station := some s }
      | _, _ => none
    else some acc

/-- Folding fieldStep over the fields of the JSON object, in order. -/
def fieldsFold : List (String × Json) → ParseAcc → Option ParseAcc
  | [], acc => some acc
  | kv :: rest, acc =>
    match fieldStep acc kv with
    | some acc1 => fieldsFold rest acc1
    | none => none

/-- The empty accumulator: no field seen yet. -/
def emptyAcc : ParseAcc := ⟨none, none, none, none, none⟩

/-- Model of serde_json::from_str::<MqttDeviceEvent> at the JSON-value
level (web-gui.rs:312): the payload must be an object, all five declared
fields must be present with well-typed values, and unknown fields are
ignored. -/
def parseMqttDeviceEvent : Json → Option MqttDeviceEvent
  | Json.obj fields =>
    match fieldsFold fields emptyAcc with
    | some acc =>
      match acc.mac_hash, acc.rssi, acc.channel, acc.timestamp, acc.station with
      | some m, some r, some c, some t, some s => some ⟨m, r, c, t, s⟩
      | _, _, _, _, _ => none
    | none => none
  | _ => none

/-- Model of the RssiReading struct (web-gui.rs:116-119). -/
structure RssiReading where
  rssi : Int
  timestamp : Nat
deriving DecidableEq, Repr

/-- Model of the DeviceState struct (web-gui.rs:123-129).  The position
field and its tracker update are omitted: no claim refers to them, and
the triangulation module they call lives outside the sniffer sources. -/
structure DeviceState where
  mac_hash : String
  readings : List (String × RssiReading)
  last_seen : Nat
deriving DecidableEq, Repr

/-- Lookup in an association list modelling a HashMap. -/
def lookupAssoc {α : Type} : List (String × α) → String → Option α
  | [], _ => none
  | (k, v) :: rest, key => if key = k then some v else lookupAssoc rest key

/-- Insert-or-replace in an association list, modelling HashMap::insert
(and the entry API): an existing binding for the key is overwritten. -/
def insertAssoc {α : Type} (key : String) (val : α) :
    List (String × α) → List (String × α)
  | [] => [(key, val)]
  | (k, v) :: rest =>
    if key = k then (key, val) :: rest else (k, v) :: insertAssoc key val rest

/-- The device store: the devices HashMap of AppState (web-gui.rs:134). -/
def Store : Type := List (String × DeviceState)

/-- Model of the store update for one valid event (web-gui.rs:316-333):
the device entry is fetched or created with last_seen = event.timestamp
and empty readings; the reading for event.station is overwritten with
(event.rssi, event.timestamp); last_seen is set to event.timestamp. -/
def observe (devices : Store) (e : MqttDeviceEvent) : Store :=
  let d0 : DeviceState :=
    match lookupAssoc devices e.mac_hash with
    | some d => d
    | none => { mac_hash := e.mac_hash, readings := [], last_seen := e.timestamp }
  let d1 : DeviceState :=
    { d0 with
      readings := insertAssoc e.station ⟨e.rssi, e.timestamp⟩ d0.readings
      last_seen := e.timestamp }
  insertAssoc e.mac_hash d1 devices

/-- Model of cleanup_old_devices (web-gui.rs:382-384): the body is empty,
stale-device removal is disabled, the store is returned unchanged. -/
def cleanup_old_devices (devices : Store) : Store := devices

/-- One ingestor step on a received MQTT publish (web-gui.rs:309-364):
none models a payload that is not valid UTF-8 or not valid JSON; a parse
failure leaves the store unchanged; a parsed event is observed. -/
def mqtt_subscriber_step (devices : Store) (msg : Option Json) : Store :=
  match msg with
  | some j =>
    match parseMqttDeviceEvent j with
    | some e => observe devices e
    | none => devices
  | none => devices

/-- A server-side operation: handling one incoming message, or one run of
the periodic cleanup path (web-gui.rs:373-377). -/
inductive ServerOp where
  | msg (m : Option Json)
  | cleanup

/-- Run of the ingestor over a sequence of operations. -/
def runServer (devices : Store) : List ServerOp → Store
  | [] => devices
  | ServerOp.msg m :: rest => runServer (mqtt_subscriber_step devices m) rest
  | ServerOp.cleanup :: rest => runServer (cleanup_old_devices devices) rest

/-- Run of the store update over a sequence of valid events. -/
def runObserve (devices : Store) : List MqttDeviceEvent → Store
  | [] => devices
  | e :: rest => runObserve (observe devices e) rest

/-- Largest timestamp over the readings of a record (0 when empty). -/
def maxTimestamp (readings : List (String × RssiReading)) : Nat :=
  readings.foldr (fun p m => max p.2.timestamp m) 0

end WebGui

namespace Sniffer

/-- Number of selected (rate-limited) frames among n accepted frames when
the packet counter starts at k: the count of i in [k, k+n) with i % 50 = 0. -/
def numSel (k n : Nat) : Nat := (k + n + 49) / 50 - (k + 49) / 50

/-- All inputs of a run pass the filters and find the sender slot
installed and its lock uncontended. -/
def AllGoodEnv (inputs : List (Frame × CbEnv)) : Prop :=
  ∀ p ∈ inputs, passesFilters p.1 = true ∧ p.2.lock_ok = true ∧ p.2.sender_set = true

/-- A concrete 24-byte frame whose addr2 (payload bytes 10..16) is the
unicast source MAC 02:00:00:00:00:01. -/
def demoFrame : Frame :=
  ⟨24, [0, 0, 0, 0, 1, 1, 1, 1, 1, 1, 0x02, 0, 0, 0, 0, 0x01, 3, 3, 3, 3, 3, 3, 0, 0],
   -42, 6, 123⟩

end Sniffer

namespace WebGui

/-- Invariant relating last_seen to the readings of every record: some
reading carries timestamp last_seen and no reading carries a larger one. -/
def InvLastSeen (devices : Store) : Prop :=
  ∀ k d, lookupAssoc devices k = some d →
    (∀ p ∈ d.readings, p.2.timestamp ≤ d.last_seen) ∧
    (∃ p ∈ d.readings, p.2.timestamp = d.last_seen)

/-- In-order arrival condition for one event: its timestamp is not older
than the current last_seen of its device (vacuous for a new device). -/
def InOrder (devices : Store) (e : MqttDeviceEvent) : Prop :=
  ∀ d, lookupAssoc devices e.mac_hash = some d → d.last_seen ≤ e.timestamp

/-- Invariant: the readings map of every record has no duplicate station
keys. -/
def ReadingsKeysNodup (devices : Store) : Prop :=
  ∀ k d, lookupAssoc devices k = some d → (d.readings.map Prod.fst).Nodup

end WebGui

open Sniffer Mqtt WebGui

theorem lookup_insertAssoc {α : Type} (key : String) (v : α) (l : List (String × α))
    (k : String) :
    lookupAssoc (insertAssoc key v l) k = if k = key then some v else lookupAssoc l k := by
  induction l with
  | nil => by_cases hk : k = key <;> simp [insertAssoc, lookupAssoc, hk]
  | cons hd tl ih =>
    obtain ⟨k', v'⟩ := hd
    by_cases h : key = k'
    · subst h
      by_cases hk : k = key <;> simp [insertAssoc, lookupAssoc, hk]
    · by_cases hk : k = k' <;> by_cases hkey : k = key <;>
        simp_all [insertAssoc, lookupAssoc, hk, hkey]

theorem mem_insertAssoc {α : Type} (key : String) (v : α) (l : List (String × α))
    (p : String × α) (hp : p ∈ insertAssoc key v l) : p = (key, v) ∨ p ∈ l := by
  induction l with
  | nil => simpa [insertAssoc] using hp
  | cons hd tl ih =>
    obtain ⟨k', v'⟩ := hd
    by_cases h : key = k'
    · subst h
      simp only [insertAssoc, if_pos rfl] at hp
      rcases List.mem_cons.mp hp with h1 | h2
      · exact Or.inl h1
      · exact Or.inr (List.mem_cons_of_mem _ h2)
    · simp only [insertAssoc, if_neg h] at hp
      rcases List.mem_cons.mp hp with h1 | h2
      · exact Or.inr (by simp [h1])
      · rcases ih h2 with h3 | h4
        · exact Or.inl h3
        · exact Or.inr (List.mem_cons_of_mem _ h4)

theorem self_mem_insertAssoc {α : Type} (key : String) (v : α) (l : List (String × α)) :
    (key, v) ∈ insertAssoc key v l := by
  induction l with
  | nil => simp [insertAssoc]
  | cons hd tl ih =>
    obtain ⟨k', v'⟩ := hd
    by_cases h : key = k'
    · simp [insertAssoc, h]
    · simp only [insertAssoc, if_neg h]
      exact List.mem_cons_of_mem _ ih

theorem keys_insertAssoc {α : Type} (key : String) (v : α) (l : List (String × α))
    (a : String) :
    a ∈ (insertAssoc key v l).map Prod.fst ↔ a = key ∨ a ∈ l.map Prod.fst := by
  induction l with
  | nil => simp [insertAssoc]
  | cons hd tl ih =>
    obtain ⟨k', v'⟩ := hd
    by_cases h : key = k'
    · subst h
      simp [insertAssoc]
    · simp only [insertAssoc, if_neg h, List.map_cons, List.mem_cons, ih]
      tauto

theorem nodup_keys_insertAssoc {α : Type} (key : String) (v : α) (l : List (String × α))
    (h : (l.map Prod.fst).Nodup) : ((insertAssoc key v l).map Prod.fst).Nodup := by
  induction l with
  | nil => simp [insertAssoc]
  | cons hd tl ih =>
    obtain ⟨k', v'⟩ := hd
    simp only [List.map_cons, List.nodup_cons] at h
    by_cases hk : key = k'
    · subst hk
      simpa [insertAssoc, List.nodup_cons] using h
    · simp only [insertAssoc, if_neg hk, List.map_cons, List.nodup_cons]
      refine ⟨?_, ih h.2⟩
      rw [keys_insertAssoc]
      rintro (h1 | h2)
      · exact hk (h1.symm)
      · exact h.1 h2

theorem callback_reject_short (st : CbState) (f : Frame) (env : CbEnv)
    (h : f.sig_len < 24) : promiscuous_rx_callback st f env = (st, none) := by
  unfold promiscuous_rx_callback
  simp [h]

theorem callback_reject_bcmc (st : CbState) (f : Frame) (env : CbEnv)
    (h24 : ¬ f.sig_len < 24)
    (hbm : (f.source_mac.is_broadcast || f.source_mac.is_multicast) = true) :
    promiscuous_rx_callback st f env = (st, none) := by
  unfold promiscuous_rx_callback
  simp [h24, hbm]

/-- C3: every frame the sniffer callback accepts (increments the packet
counter for, and hence may forward) has sig_len at least 24 and a source
MAC (payload bytes 10..16) that is neither broadcast nor multicast; the
length filter fires before the source MAC is consulted; and a frame whose
source MAC is FF:FF:FF:FF:FF:FF leaves the state unchanged and produces
no event. -/
theorem C3_sniffer_filter_invariant (st : CbState) (f : Frame) (env : CbEnv) :
    ((promiscuous_rx_callback st f env).1.packet_count ≠ st.packet_count →
      24 ≤ f.sig_len ∧ f.source_mac.is_broadcast = false ∧
        f.source_mac.is_multicast = false) ∧
    (f.sig_len < 24 → promiscuous_rx_callback st f env = (st, none)) ∧
    (f.source_mac.bytes = [0xFF, 0xFF, 0xFF, 0xFF, 0xFF, 0xFF] →
      promiscuous_rx_callback st f env = (st, none)) := by
  refine ⟨?_, ?_, ?_⟩
  · intro hne
    by_cases h24 : f.sig_len < 24
    · rw [callback_reject_short st f env h24] at hne
      simp at hne
    · by_cases hbm : (f.source_mac.is_broadcast || f.source_mac.is_multicast) = true
      · rw [callback_reject_bcmc st f env h24 hbm] at hne
        simp at hne
      · have hbm2 := Bool.or_eq_false_iff.mp (Bool.eq_false_iff.mpr hbm)
        exact ⟨by omega, hbm2.1, hbm2.2⟩
  · intro h24
    exact callback_reject_short st f env h24
  · intro hff
    by_cases h24 : f.sig_len < 24
    · exact callback_reject_short st f env h24
    · refine callback_reject_bcmc st f env h24 ?_
      have hb : f.source_mac.is_broadcast = true := by
        simp [MacAddress.is_broadcast, hff]
      simp [hb]

/-- C3 witness: at a concrete short frame and a concrete all-FF-source
frame the callback leaves the state unchanged and produces no event. -/
theorem C3_sniffer_filter_invariant_witness :
    promiscuous_rx_callback initState ⟨10, [], -1, 1, 0⟩ ⟨true, true, true⟩ =
      (initState, none) ∧
    promiscuous_rx_callback initState
      ⟨24, [0, 0, 0, 0, 1, 1, 1, 1, 1, 1, 0xFF, 0xFF, 0xFF, 0xFF, 0xFF, 0xFF,
            3, 3, 3, 3, 3, 3, 0, 0], -42, 6, 123⟩ ⟨true, true, true⟩ =
      (initState, none) :=
  ⟨(C3_sniffer_filter_invariant initState ⟨10, [], -1, 1, 0⟩ ⟨true, true, true⟩).2.1
      (by decide),
   (C3_sniffer_filter_invariant initState
      ⟨24, [0, 0, 0, 0, 1, 1, 1, 1, 1, 1, 0xFF, 0xFF, 0xFF, 0xFF, 0xFF, 0xFF,
            3, 3, 3, 3, 3, 3, 0, 0], -42, 6, 123⟩ ⟨true, true, true⟩).2.2
      (by decide)⟩

/-- C1: the event the sniffer callback hands to the channel carries the
raw 48-bit source MAC verbatim (payload bytes 10..16 of the frame), not a
SHA-256 digest: at a concrete accepted frame the forwarded mac field is
the 6 raw source bytes, whereas the DeviceEvent struct declared in
mqtt.rs (and the spec) require a 32-byte hash.  No hashing exists in the
station sources. -/
theorem C1_event_carries_raw_mac :
    (promiscuous_rx_callback initState demoFrame ⟨true, true, true⟩).2 =
      some ⟨demoFrame.source_mac.bytes, demoFrame.rssi, demoFrame.channel,
            demoFrame.timestamp⟩ ∧
    demoFrame.source_mac.bytes = [0x02, 0, 0, 0, 0, 0x01] ∧
    demoFrame.source_mac.bytes.length ≠ 32 := by
  refine ⟨by decide, by decide, by decide⟩

/-- C8: the set of device records only grows: any key present in the
store is still present after any sequence of ingestor operations
(message handling and periodic cleanup); a record is created for the
mac_hash of every successfully parsed message; and cleanup_old_devices
removes nothing. -/
theorem C8_device_records_never_removed :
    (∀ (devices : Store) (ops : List ServerOp) (k : String),
        (lookupAssoc devices k).isSome = true →
        (lookupAssoc (runServer devices ops) k).isSome = true) ∧
    (∀ (devices : Store) (j : Json) (e : MqttDeviceEvent),
        parseMqttDeviceEvent j = some e →
        (lookupAssoc (mqtt_subscriber_step devices (some j)) e.mac_hash).isSome = true) ∧
    (∀ devices : Store, cleanup_old_devices devices = devices) := by
  have hobs : ∀ (devices : Store) (e : MqttDeviceEvent) (k : String),
      (lookupAssoc devices k).isSome = true →
      (lookupAssoc (observe devices e) k).isSome = true := by
    intro devices e k hk
    unfold observe
    rw [lookup_insertAssoc]
    by_cases h : k = e.mac_hash <;> simp [h, hk]
  have hstep : ∀ (devices : Store) (m : Option Json) (k : String),
      (lookupAssoc devices k).isSome = true →
      (lookupAssoc (mqtt_subscriber_step devices m) k).isSome = true := by
    intro devices m k hk
    cases m with
    | none => exact hk
    | some j =>
      simp only [mqtt_subscriber_step]
      cases hp : parseMqttDeviceEvent j with
      | none => exact hk
      | some e => exact hobs devices e k hk
  refine ⟨?_, ?_, fun _ => rfl⟩
  · intro devices ops
    induction ops generalizing devices with
    | nil => intro k hk; exact hk
    | cons op rest ih =>
      intro k hk
      match op with
      | ServerOp.msg m => exact ih (mqtt_subscriber_step devices m) k (hstep devices m k hk)
      | ServerOp.cleanup => exact ih (cleanup_old_devices devices) k hk
  · intro devices j e hp
    simp only [mqtt_subscriber_step, hp]
    unfold observe
    rw [lookup_insertAssoc]
    simp

/-- C8 witness: a concrete store with one record keeps it across a
cleanup and a malformed message, and a concrete valid message creates
its record. -/
theorem C8_device_records_never_removed_witness :
    (lookupAssoc (runServer [("d", ⟨"d", [], 0⟩)] [ServerOp.cleanup, ServerOp.msg none])
        "d").isSome = true ∧
    (lookupAssoc (mqtt_subscriber_step []
        (some (Json.obj [("mac_hash", Json.str "aa"), ("rssi", Json.num (-50)),
                         ("channel", Json.num 6), ("timestamp", Json.num 1),
                         ("station", Json.str "s1")])))
        "aa").isSome = true :=
  ⟨C8_device_records_never_removed.1 [("d", ⟨"d", [], 0⟩)]
      [ServerOp.cleanup, ServerOp.msg none] "d" (by decide),
   C8_device_records_never_removed.2.1 []
      (Json.obj [("mac_hash", Json.str "aa"), ("rssi", Json.num (-50)),
                 ("channel", Json.num 6), ("timestamp", Json.num 1),
                 ("station", Json.str "s1")])
      ⟨"aa", -50, 6, 1, "s1"⟩ (by decide)⟩

theorem le_maxTimestamp (readings : List (String × RssiReading))
    (p : String × RssiReading) (hp : p ∈ readings) :
    p.2.timestamp ≤ maxTimestamp readings := by
  induction readings with
  | nil => cases hp
  | cons q rest ih =>
    rcases List.mem_cons.mp hp with h1 | h2
    · subst h1
      exact le_max_left _ _
    · exact le_trans (ih h2) (le_max_right _ _)

theorem maxTimestamp_le (readings : List (String × RssiReading)) (L : Nat)
    (h : ∀ p ∈ readings, p.2.timestamp ≤ L) : maxTimestamp readings ≤ L := by
  induction readings with
  | nil => exact Nat.zero_le L
  | cons q rest ih =>
    have h1 : q.2.timestamp ≤ L := h q (List.mem_cons_self _ _)
    have h2 : maxTimestamp rest ≤ L := ih (fun p hp => h p (List.mem_cons_of_mem _ hp))
    exact max_le h1 h2

/-- C2 (amended): the store always sets last_seen to the timestamp of the
most recently processed event of the device; the invariant
last_seen = max(timestamp over readings) is established and preserved by
observe whenever each incoming event is at least as recent as the
device's current last_seen (per-device nondecreasing arrival), and any
store satisfying the invariant has last_seen equal to the maximum reading
timestamp. -/
theorem C2_last_seen_invariant_in_order :
    InvLastSeen [] ∧
    (∀ (devices : Store) (e : MqttDeviceEvent),
        InvLastSeen devices → InOrder devices e → InvLastSeen (observe devices e)) ∧
    (∀ (devices : Store) (k : String) (d : DeviceState),
        InvLastSeen devices → lookupAssoc devices k = some d →
        d.last_seen = maxTimestamp d.readings) ∧
    (∀ (devices : Store) (e : MqttDeviceEvent) (d : DeviceState),
        lookupAssoc (observe devices e) e.mac_hash = some d →
        d.last_seen = e.timestamp) := by
  refine ⟨?_, ?_, ?_, ?_⟩
  · intro k d h
    simp [lookupAssoc] at h
  · intro devices e hInv hOrd
    cases hd0 : lookupAssoc devices e.mac_hash with
    | some dOld =>
      intro k d hlook
      simp only [observe, hd0] at hlook
      rw [lookup_insertAssoc] at hlook
      by_cases hk : k = e.mac_hash
      · rw [if_pos hk, Option.some_inj] at hlook
        subst hlook
        constructor
        · intro p hp
          rcases mem_insertAssoc _ _ _ _ hp with h1 | h2
          · subst h1; exact le_refl _
          · exact le_trans ((hInv e.mac_hash dOld hd0).1 p h2) (hOrd dOld hd0)
        · exact ⟨(e.station, ⟨e.rssi, e.timestamp⟩), self_mem_insertAssoc _ _ _, rfl⟩
      · rw [if_neg hk] at hlook
        exact hInv k d hlook
    | none =>
      intro k d hlook
      simp only [observe, hd0] at hlook
      rw [lookup_insertAssoc] at hlook
      by_cases hk : k = e.mac_hash
      · rw [if_pos hk, Option.some_inj] at hlook
        subst hlook
        constructor
        · intro p hp
          rcases mem_insertAssoc _ _ _ _ hp with h1 | h2
          · subst h1; exact le_refl _
          · cases h2
        · exact ⟨(e.station, ⟨e.rssi, e.timestamp⟩), self_mem_insertAssoc _ _ _, rfl⟩
      · rw [if_neg hk] at hlook
        exact hInv k d hlook
  · intro devices k d hInv hlook
    obtain ⟨hbound, p, hp, hts⟩ := hInv k d hlook
    refine le_antisymm ?_ (maxTimestamp_le _ _ hbound)
    calc d.last_seen = p.2.timestamp := hts.symm
      _ ≤ maxTimestamp d.readings := le_maxTimestamp _ p hp
  · intro devices e d hlook
    cases hd0 : lookupAssoc devices e.mac_hash with
    | some dOld =>
      simp only [observe, hd0] at hlook
      rw [lookup_insertAssoc, if_pos rfl, Option.some_inj] at hlook
      subst hlook
      rfl
    | none =>
      simp only [observe, hd0] at hlook
      rw [lookup_insertAssoc, if_pos rfl, Option.some_inj] at hlook
      subst hlook
      rfl

/-- C2 witness: the invariant-preservation part of the theorem applied to
the empty store and one concrete event, and the max-characterization part
applied to a concrete one-device store. -/
theorem C2_last_seen_invariant_in_order_witness :
    InvLastSeen (observe [] ⟨"m", -50, 1, 10, "A"⟩) ∧
    (⟨"m", [("A", ⟨-50, 10⟩)], 10⟩ : DeviceState).last_seen =
      maxTimestamp (⟨"m", [("A", ⟨-50, 10⟩)], 10⟩ : DeviceState).readings :=
  ⟨C2_last_seen_invariant_in_order.2.1 [] ⟨"m", -50, 1, 10, "A"⟩
      (fun k d h => by simp [lookupAssoc] at h)
      (fun d h => by simp [lookupAssoc] at h),
   C2_last_seen_invariant_in_order.2.2.1 [("m", ⟨"m", [("A", ⟨-50, 10⟩)], 10⟩)] "m"
      ⟨"m", [("A", ⟨-50, 10⟩)], 10⟩
      (by
        intro k d h
        simp only [lookupAssoc] at h
        by_cases hk : k = "m"
        · rw [if_pos hk, Option.some_inj] at h
          subst h
          exact ⟨by decide, by decide⟩
        · rw [if_neg hk] at h
          cases h)
      (by simp [lookupAssoc])⟩

/-- C2 counterexample: two valid events for the same device arriving with
out-of-order timestamps across stations (10 from station A, then 5 from
station B) leave the record with last_seen = 5 while the maximum
timestamp over its readings is 10, refuting
last_seen = max(timestamp over readings). -/
theorem C2_out_of_order_breaks_last_seen :
    lookupAssoc (runObserve [] [⟨"m", -50, 1, 10, "A"⟩, ⟨"m", -60, 1, 5, "B"⟩]) "m" =
      some ⟨"m", [("A", ⟨-50, 10⟩), ("B", ⟨-60, 5⟩)], 5⟩ ∧
    maxTimestamp [("A", (⟨-50, 10⟩ : RssiReading)), ("B", ⟨-60, 5⟩)] = 10 ∧
    (5 : Nat) ≠ 10 := by
  refine ⟨by decide, by decide, by decide⟩

theorem observe_keeps_nodup (devices : Store) (e : MqttDeviceEvent)
    (hInv : ReadingsKeysNodup devices) : ReadingsKeysNodup (observe devices e) := by
  cases hd0 : lookupAssoc devices e.mac_hash with
  | some dOld =>
    intro k d hlook
    simp only [observe, hd0] at hlook
    rw [lookup_insertAssoc] at hlook
    by_cases hk : k = e.mac_hash
    · rw [if_pos hk, Option.some_inj] at hlook
      subst hlook
      exact nodup_keys_insertAssoc _ _ _ (hInv e.mac_hash dOld hd0)
    · rw [if_neg hk] at hlook
      exact hInv k d hlook
  | none =>
    intro k d hlook
    simp only [observe, hd0] at hlook
    rw [lookup_insertAssoc] at hlook
    by_cases hk : k = e.mac_hash
    · rw [if_pos hk, Option.some_inj] at hlook
      subst hlook
      exact nodup_keys_insertAssoc _ _ _ List.nodup_nil
    · rw [if_neg hk] at hlook
      exact hInv k d hlook

theorem step_keeps_nodup (devices : Store) (m : Option Json)
    (hInv : ReadingsKeysNodup devices) :
    ReadingsKeysNodup (mqtt_subscriber_step devices m) := by
  cases m with
  | none => exact hInv
  | some j =>
    simp only [mqtt_subscriber_step]
    cases hp : parseMqttDeviceEvent j with
    | none => exact hInv
    | some e => exact observe_keeps_nodup devices e hInv

/-- C7 (amended): within a (device, station) pair the reading retained
after observe is the one of the last processed event (so the most recent
event by timestamp only when the pair's events arrive in nondecreasing
timestamp order), and the readings map never holds more than one entry
per station id: insertion overwrites and preserves key uniqueness across
every ingestor run. -/
theorem C7_last_processed_reading_retained :
    (∀ (devices : Store) (e : MqttDeviceEvent), ∃ d,
        lookupAssoc (observe devices e) e.mac_hash = some d ∧
        lookupAssoc d.readings e.station = some ⟨e.rssi, e.timestamp⟩) ∧
    ReadingsKeysNodup [] ∧
    (∀ (devices : Store) (e : MqttDeviceEvent),
        ReadingsKeysNodup devices → ReadingsKeysNodup (observe devices e)) ∧
    (∀ (devices : Store) (ops : List ServerOp),
        ReadingsKeysNodup devices → ReadingsKeysNodup (runServer devices ops)) := by
  refine ⟨?_, ?_, observe_keeps_nodup, ?_⟩
  · intro devices e
    cases hd0 : lookupAssoc devices e.mac_hash with
    | some dOld =>
      refine ⟨⟨dOld.mac_hash,
               insertAssoc e.station ⟨e.rssi, e.timestamp⟩ dOld.readings,
               e.timestamp⟩, ?_, ?_⟩
      · simp only [observe, hd0]
        rw [lookup_insertAssoc]
        simp
      · rw [lookup_insertAssoc]
        simp
    | none =>
      refine ⟨⟨e.mac_hash,
               insertAssoc e.station ⟨e.rssi, e.timestamp⟩ [],
               e.timestamp⟩, ?_, ?_⟩
      · simp only [observe, hd0]
        rw [lookup_insertAssoc]
        simp
      · rw [lookup_insertAssoc]
        simp
  · intro k d h
    simp [lookupAssoc] at h
  · intro devices ops
    induction ops generalizing devices with
    | nil => exact fun h => h
    | cons op rest ih =>
      intro h
      cases op with
      | msg m => exact ih (mqtt_subscriber_step devices m) (step_keeps_nodup devices m h)
      | cleanup => exact ih (cleanup_old_devices devices) h

/-- C7 witness: key uniqueness of the readings maps after a concrete run
from the empty store, obtained from the theorem with its hypotheses
discharged at the empty store. -/
theorem C7_last_processed_reading_retained_witness :
    ReadingsKeysNodup (runServer []
      [ServerOp.msg (some (Json.obj [("mac_hash", Json.str "aa"),
          ("rssi", Json.num (-50)), ("channel", Json.num 6),
          ("timestamp", Json.num 1), ("station", Json.str "s1")])),
       ServerOp.cleanup]) :=
  C7_last_processed_reading_retained.2.2.2 []
    [ServerOp.msg (some (Json.obj [("mac_hash", Json.str "aa"),
        ("rssi", Json.num (-50)), ("channel", Json.num 6),
        ("timestamp", Json.num 1), ("station", Json.str "s1")])),
     ServerOp.cleanup]
    (fun k d h => by simp [lookupAssoc] at h)

/-- C7 counterexample: two events for the same (device, station) pair
processed in the order timestamp 10 then timestamp 5 leave the reading
with timestamp 5: the later-arriving but older event wins, refuting that
the most recent event by timestamp is retained. -/
theorem C7_out_of_order_reading_retained :
    lookupAssoc (runObserve [] [⟨"m", -50, 1, 10, "A"⟩, ⟨"m", -70, 1, 5, "A"⟩]) "m" =
      some ⟨"m", [("A", ⟨-70, 5⟩)], 5⟩ ∧
    ((⟨-70, 5⟩ : RssiReading)).timestamp ≠ 10 := by
  refine ⟨by decide, by decide⟩

theorem fieldStep_key_rssi (acc : ParseAcc) (v : Json) :
    fieldStep acc ("rssi", v) =
      match acc.rssi, v with
      | none, Json.num n =>
        if -128 ≤ n ∧ n ≤ 127 then some { acc with rssi := some n } else none
      | _, _ => none := by
  rfl

theorem fieldStep_key_channel (acc : ParseAcc) (v : Json) :
    fieldStep acc ("channel", v) =
      match acc.channel, v with
      | none, Json.num n =>
        if 0 ≤ n ∧ n ≤ 255 then some { acc with channel := some n.toNat } else none
      | _, _ => none := by
  rfl

theorem fold_none_of_bad_rssi (fields : List (String × Json)) :
    ∀ (acc : ParseAcc) (n : Int), ("rssi", Json.num n) ∈ fields →
      (n < -128 ∨ 127 < n) → fieldsFold fields acc = none := by
  induction fields with
  | nil => intro acc n hmem _; cases hmem
  | cons kv rest ih =>
    intro acc n hmem hbad
    rcases List.mem_cons.mp hmem with h1 | h2
    · subst h1
      simp only [fieldsFold]
      rw [fieldStep_key_rssi]
      cases hr : acc.rssi with
      | some m => rfl
      | none =>
        have hcond : ¬(-128 ≤ n ∧ n ≤ 127) := by omega
        simp [hcond]
    · simp only [fieldsFold]
      cases hs : fieldStep acc kv with
      | none => rfl
      | some acc1 => exact ih acc1 n h2 hbad

theorem fold_none_of_bad_channel (fields : List (String × Json)) :
    ∀ (acc : ParseAcc) (n : Int), ("channel", Json.num n) ∈ fields →
      (n < 0 ∨ 255 < n) → fieldsFold fields acc = none := by
  induction fields with
  | nil => intro acc n hmem _; cases hmem
  | cons kv rest ih =>
    intro acc n hmem hbad
    rcases List.mem_cons.mp hmem with h1 | h2
    · subst h1
      simp only [fieldsFold]
      rw [fieldStep_key_channel]
      cases hr : acc.channel with
      | some m => rfl
      | none =>
        have hcond : ¬(0 ≤ n ∧ n ≤ 255) := by omega
        simp [hcond]
    · simp only [fieldsFold]
      cases hs : fieldStep acc kv with
      | none => rfl
      | some acc1 => exact ih acc1 n h2 hbad

theorem fieldStep_some_fields (acc : ParseAcc) (k : String) (v : Json) (acc1 : ParseAcc)
    (h : fieldStep acc (k, v) = some acc1) :
    (acc1.mac_hash = acc.mac_hash ∨ k = "mac_hash") ∧
    (acc1.rssi = acc.rssi ∨ k = "rssi") ∧
    (acc1.channel = acc.channel ∨ k = "channel") ∧
    (acc1.timestamp = acc.timestamp ∨ k = "timestamp") ∧
    (acc1.station = acc.station ∨ k = "station") := by
  simp only [fieldStep] at h
  split_ifs at h with h1 h2 h3 h4 h5
  · split at h
    all_goals try exact Option.noConfusion h
    injection h with h'
    subst h'
    exact ⟨Or.inr h1, Or.inl rfl, Or.inl rfl, Or.inl rfl, Or.inl rfl⟩
  · split at h
    all_goals try exact Option.noConfusion h
    split at h
    all_goals try exact Option.noConfusion h
    injection h with h'
    subst h'
    exact ⟨Or.inl rfl, Or.inr h2, Or.inl rfl, Or.inl rfl, Or.inl rfl⟩
  · split at h
    all_goals try exact Option.noConfusion h
    split at h
    all_goals try exact Option.noConfusion h
    injection h with h'
    subst h'
    exact ⟨Or.inl rfl, Or.inl rfl, Or.inr h3, Or.inl rfl, Or.inl rfl⟩
  · split at h
    all_goals try exact Option.noConfusion h
    split at h
    all_goals try exact Option.noConfusion h
    injection h with h'
    subst h'
    exact ⟨Or.inl rfl, Or.inl rfl, Or.inl rfl, Or.inr h4, Or.inl rfl⟩
  · split at h
    all_goals try exact Option.noConfusion h
    injection h with h'
    subst h'
    exact ⟨Or.inl rfl, Or.inl rfl, Or.inl rfl, Or.inl rfl, Or.inr h5⟩
  · injection h with h'
    subst h'
    exact ⟨Or.inl rfl, Or.inl rfl, Or.inl rfl, Or.inl rfl, Or.inl rfl⟩

theorem fold_fields_present (fields : List (String × Json)) :
    ∀ (acc acc' : ParseAcc), fieldsFold fields acc = some acc' →
      (acc'.mac_hash = acc.mac_hash ∨ ∃ v, ("mac_hash", v) ∈ fields) ∧
      (acc'.rssi = acc.rssi ∨ ∃ v, ("rssi", v) ∈ fields) ∧
      (acc'.channel = acc.channel ∨ ∃ v, ("channel", v) ∈ fields) ∧
      (acc'.timestamp = acc.timestamp ∨ ∃ v, ("timestamp", v) ∈ fields) ∧
      (acc'.station = acc.station ∨ ∃ v, ("station", v) ∈ fields) := by
  induction fields with
  | nil =>
    intro acc acc' h
    simp only [fieldsFold, Option.some_inj] at h
    subst h
    exact ⟨Or.inl rfl, Or.inl rfl, Or.inl rfl, Or.inl rfl, Or.inl rfl⟩
  | cons kv rest ih =>
    intro acc acc' h
    obtain ⟨k, v⟩ := kv
    simp only [fieldsFold] at h
    cases hs : fieldStep acc (k, v) with
    | none => rw [hs] at h; exact Option.noConfusion h
    | some acc1 =>
      rw [hs] at h
      have hrec := ih acc1 acc' h
      have hstep := fieldStep_some_fields acc k v acc1 hs
      refine ⟨?_, ?_, ?_, ?_, ?_⟩
      · rcases hrec.1 with he | ⟨w, hw⟩
        · rcases hstep.1 with he2 | hk
          · exact Or.inl (he.trans he2)
          · exact Or.inr ⟨v, by subst hk; exact List.mem_cons_self _ _⟩
        · exact Or.inr ⟨w, List.mem_cons_of_mem _ hw⟩
      · rcases hrec.2.1 with he | ⟨w, hw⟩
        · rcases hstep.2.1 with he2 | hk
          · exact Or.inl (he.trans he2)
          · exact Or.inr ⟨v, by subst hk; exact List.mem_cons_self _ _⟩
        · exact Or.inr ⟨w, List.mem_cons_of_mem _ hw⟩
      · rcases hrec.2.2.1 with he | ⟨w, hw⟩
        · rcases hstep.2.2.1 with he2 | hk
          · exact Or.inl (he.trans he2)
          · exact Or.inr ⟨v, by subst hk; exact List.mem_cons_self _ _⟩
        · exact Or.inr ⟨w, List.mem_cons_of_mem _ hw⟩
      · rcases hrec.2.2.2.1 with he | ⟨w, hw⟩
        · rcases hstep.2.2.2.1 with he2 | hk
          · exact Or.inl (he.trans he2)
          · exact Or.inr ⟨v, by subst hk; exact List.mem_cons_self _ _⟩
        · exact Or.inr ⟨w, List.mem_cons_of_mem _ hw⟩
      · rcases hrec.2.2.2.2 with he | ⟨w, hw⟩
        · rcases hstep.2.2.2.2 with he2 | hk
          · exact Or.inl (he.trans he2)
          · exact Or.inr ⟨v, by subst hk; exact List.mem_cons_self _ _⟩
        · exact Or.inr ⟨w, List.mem_cons_of_mem _ hw⟩

theorem fieldStep_unknown_key (acc : ParseAcc) (k : String) (v : Json)
    (h1 : k ≠ "mac_hash") (h2 : k ≠ "rssi") (h3 : k ≠ "channel")
    (h4 : k ≠ "timestamp") (h5 : k ≠ "station") :
    fieldStep acc (k, v) = some acc := by
  simp only [fieldStep]
  rw [if_neg h1, if_neg h2, if_neg h3, if_neg h4, if_neg h5]

theorem fold_unknown_key_removed (pre : List (String × Json)) :
    ∀ (post : List (String × Json)) (k : String) (v : Json) (acc : ParseAcc),
      k ≠ "mac_hash" → k ≠ "rssi" → k ≠ "channel" → k ≠ "timestamp" → k ≠ "station" →
      fieldsFold (pre ++ (k, v) :: post) acc = fieldsFold (pre ++ post) acc := by
  induction pre with
  | nil =>
    intro post k v acc h1 h2 h3 h4 h5
    simp only [List.nil_append, fieldsFold,
      fieldStep_unknown_key acc k v h1 h2 h3 h4 h5]
  | cons p pre' ih =>
    intro post k v acc h1 h2 h3 h4 h5
    simp only [List.cons_append, fieldsFold]
    cases hs : fieldStep acc p with
    | none => rfl
    | some acc1 => exact ih post k v acc1 h1 h2 h3 h4 h5

/-- C5 (amended): the ingestor discards, without modifying the device
store, every message that is not valid UTF-8 or not valid JSON, whose
parse fails, that misses one of the five mandatory fields, or whose
integer field lies outside its declared machine range (rssi outside
[-128, 127], channel outside [0, 255]); unknown extra fields are ignored.
No further range checks are applied: rssi in [-128, 0] and channel in
[1, 14] are not enforced. -/
theorem C5_ingestor_validation :
    (∀ devices : Store, mqtt_subscriber_step devices none = devices) ∧
    (∀ (devices : Store) (j : Json), parseMqttDeviceEvent j = none →
        mqtt_subscriber_step devices (some j) = devices) ∧
    (∀ (fields : List (String × Json)) (e : MqttDeviceEvent),
        parseMqttDeviceEvent (Json.obj fields) = some e →
        (∃ v, ("mac_hash", v) ∈ fields) ∧ (∃ v, ("rssi", v) ∈ fields) ∧
        (∃ v, ("channel", v) ∈ fields) ∧ (∃ v, ("timestamp", v) ∈ fields) ∧
        (∃ v, ("station", v) ∈ fields)) ∧
    (∀ (fields : List (String × Json)) (n : Int),
        ("rssi", Json.num n) ∈ fields → (n < -128 ∨ 127 < n) →
        parseMqttDeviceEvent (Json.obj fields) = none) ∧
    (∀ (fields : List (String × Json)) (n : Int),
        ("channel", Json.num n) ∈ fields → (n < 0 ∨ 255 < n) →
        parseMqttDeviceEvent (Json.obj fields) = none) ∧
    (∀ (pre post : List (String × Json)) (k : String) (v : Json),
        k ≠ "mac_hash" → k ≠ "rssi" → k ≠ "channel" → k ≠ "timestamp" →
        k ≠ "station" →
        parseMqttDeviceEvent (Json.obj (pre ++ (k, v) :: post)) =
          parseMqttDeviceEvent (Json.obj (pre ++ post))) := by
  refine ⟨fun _ => rfl, ?_, ?_, ?_, ?_, ?_⟩
  · intro devices j hp
    simp only [mqtt_subscriber_step, hp]
  · intro fields e hp
    simp only [parseMqttDeviceEvent] at hp
    cases hf : fieldsFold fields emptyAcc with
    | none => rw [hf] at hp; exact Option.noConfusion hp
    | some acc =>
      rw [hf] at hp
      have hpres := fold_fields_present fields emptyAcc acc hf
      obtain ⟨m, r, c, t, s⟩ := acc
      refine ⟨?_, ?_, ?_, ?_, ?_⟩
      · cases m with
        | none => exact Option.noConfusion hp
        | some mv =>
          rcases hpres.1 with he | hex
          · exact Option.noConfusion he
          · exact hex
      · cases m with
        | none => exact Option.noConfusion hp
        | some mv =>
          cases r with
          | none => exact Option.noConfusion hp
          | some rv =>
            rcases hpres.2.1 with he | hex
            · exact Option.noConfusion he
            · exact hex
      · cases m with
        | none => exact Option.noConfusion hp
        | some mv =>
          cases r with
          | none => exact Option.noConfusion hp
          | some rv =>
            cases c with
            | none => exact Option.noConfusion hp
            | some cv =>
              rcases hpres.2.2.1 with he | hex
              · exact Option.noConfusion he
              · exact hex
      · cases m with
        | none => exact Option.noConfusion hp
        | some mv =>
          cases r with
          | none => exact Option.noConfusion hp
          | some rv =>
            cases c with
            | none => exact Option.noConfusion hp
            | some cv =>
              cases t with
              | none => exact Option.noConfusion hp
              | some tv =>
                rcases hpres.2.2.2.1 with he | hex
                · exact Option.noConfusion he
                · exact hex
      · cases m with
        | none => exact Option.noConfusion hp
        | some mv =>
          cases r with
          | none => exact Option.noConfusion hp
          | some rv =>
            cases c with
            | none => exact Option.noConfusion hp
            | some cv =>
              cases t with
              | none => exact Option.noConfusion hp
              | some tv =>
                cases s with
                | none => exact Option.noConfusion hp
                | some sv =>
                  rcases hpres.2.2.2.2 with he | hex
                  · exact Option.noConfusion he
                  · exact hex
  · intro fields n hmem hbad
    simp only [parseMqttDeviceEvent]
    rw [fold_none_of_bad_rssi fields emptyAcc n hmem hbad]
  · intro fields n hmem hbad
    simp only [parseMqttDeviceEvent]
    rw [fold_none_of_bad_channel fields emptyAcc n hmem hbad]
  · intro pre post k v h1 h2 h3 h4 h5
    simp only [parseMqttDeviceEvent]
    rw [fold_unknown_key_removed pre post k v emptyAcc h1 h2 h3 h4 h5]

/-- C5 witness: the theorem applied at concrete inputs: an unparsable
payload leaves a concrete store unchanged, and a message whose rssi is
200 (outside i8) is rejected. -/
theorem C5_ingestor_validation_witness :
    mqtt_subscriber_step [("d", ⟨"d", [], 0⟩)] (some Json.null) =
      [("d", ⟨"d", [], 0⟩)] ∧
    parseMqttDeviceEvent (Json.obj [("mac_hash", Json.str "aa"),
      ("rssi", Json.num 200), ("channel", Json.num 6), ("timestamp", Json.num 1),
      ("station", Json.str "s1")]) = none :=
  ⟨C5_ingestor_validation.2.1 [("d", ⟨"d", [], 0⟩)] Json.null (by decide),
   C5_ingestor_validation.2.2.2.1
     [("mac_hash", Json.str "aa"), ("rssi", Json.num 200), ("channel", Json.num 6),
      ("timestamp", Json.num 1), ("station", Json.str "s1")] 200
     (by simp) (by decide)⟩

/-- C5 counterexample: a message with rssi = 50 (outside [-128, 0]) and
channel = 0 (outside [1, 14]) is accepted by the ingestor and creates a
device record, refuting that such messages are discarded without
modifying the store. -/
theorem C5_out_of_range_fields_accepted :
    lookupAssoc (mqtt_subscriber_step [] (some (Json.obj
        [("mac_hash", Json.str "aa"), ("rssi", Json.num 50),
         ("channel", Json.num 0), ("timestamp", Json.num 1),
         ("station", Json.str "s1")]))) "aa" =
      some ⟨"aa", [("s1", ⟨50, 1⟩)], 1⟩ ∧
    lookupAssoc ([] : Store) "aa" = none ∧
    ¬((50 : Int) ≤ 0) ∧ ¬(1 ≤ (0 : Nat)) := by
  refine ⟨by decide, by decide, by decide, by decide⟩

theorem step_not_selected (st : CbState) (f : Frame) (env : CbEnv)
    (hpass : passesFilters f = true) (hsel : ¬ st.packet_count % SEND_RATE = 0) :
    promiscuous_rx_callback st f env =
      (⟨(st.packet_count + 1) % U32, st.sent_count, st.dropped_count⟩, none) := by
  have h' : 24 ≤ f.sig_len ∧
      (f.source_mac.is_broadcast || f.source_mac.is_multicast) = false := by
    simpa [passesFilters] using hpass
  have h24 : ¬ f.sig_len < 24 := by omega
  simp [promiscuous_rx_callback, h24, h'.2, hsel]

theorem step_selected_sent (st : CbState) (f : Frame) (env : CbEnv)
    (hpass : passesFilters f = true) (hsel : st.packet_count % SEND_RATE = 0)
    (hl : env.lock_ok = true) (hsen : env.sender_set = true)
    (hsend : env.send_ok = true) :
    promiscuous_rx_callback st f env =
      (⟨(st.packet_count + 1) % U32, (st.sent_count + 1) % U32, st.dropped_count⟩,
       some ⟨f.source_mac.bytes, f.rssi, f.channel, f.timestamp⟩) := by
  have h' : 24 ≤ f.sig_len ∧
      (f.source_mac.is_broadcast || f.source_mac.is_multicast) = false := by
    simpa [passesFilters] using hpass
  have h24 : ¬ f.sig_len < 24 := by omega
  simp [promiscuous_rx_callback, h24, h'.2, hsel, hl, hsen, hsend]

theorem step_selected_dropped (st : CbState) (f : Frame) (env : CbEnv)
    (hpass : passesFilters f = true) (hsel : st.packet_count % SEND_RATE = 0)
    (hl : env.lock_ok = true) (hsen : env.sender_set = true)
    (hsend : env.send_ok = false) :
    promiscuous_rx_callback st f env =
      (⟨(st.packet_count + 1) % U32, st.sent_count, (st.dropped_count + 1) % U32⟩,
       none) := by
  have h' : 24 ≤ f.sig_len ∧
      (f.source_mac.is_broadcast || f.source_mac.is_multicast) = false := by
    simpa [passesFilters] using hpass
  have h24 : ¬ f.sig_len < 24 := by omega
  simp [promiscuous_rx_callback, h24, h'.2, hsel, hl, hsen, hsend]

theorem step_selected_blocked (st : CbState) (f : Frame) (env : CbEnv)
    (hpass : passesFilters f = true) (hsel : st.packet_count % SEND_RATE = 0)
    (h : env.lock_ok = false ∨ env.sender_set = false) :
    promiscuous_rx_callback st f env =
      (⟨(st.packet_count + 1) % U32, st.sent_count, st.dropped_count⟩, none) := by
  have h' : 24 ≤ f.sig_len ∧
      (f.source_mac.is_broadcast || f.source_mac.is_multicast) = false := by
    simpa [passesFilters] using hpass
  have h24 : ¬ f.sig_len < 24 := by omega
  rcases h with hl | hsen
  · simp [promiscuous_rx_callback, h24, h'.2, hsel, hl]
  · simp [promiscuous_rx_callback, h24, h'.2, hsel, hsen]

theorem runSniffer_sum (inputs : List (Frame × CbEnv)) :
    ∀ st : CbState,
      (∀ p ∈ inputs, passesFilters p.1 = true ∧ p.2.lock_ok = true ∧
        p.2.sender_set = true) →
      st.packet_count + inputs.length < U32 →
      st.sent_count + st.dropped_count + numSel st.packet_count inputs.length < U32 →
      (runSniffer st inputs).1.sent_count + (runSniffer st inputs).1.dropped_count =
        st.sent_count + st.dropped_count + numSel st.packet_count inputs.length := by
  induction inputs with
  | nil =>
    intro st _ _ _
    simp only [runSniffer, numSel, List.length_nil]
    omega
  | cons p rest ih =>
    obtain ⟨f, env⟩ := p
    intro st hgood hc hs
    have hf := hgood (f, env) (List.mem_cons_self _ _)
    have hgood' : ∀ q ∈ rest, passesFilters q.1 = true ∧ q.2.lock_ok = true ∧
        q.2.sender_set = true :=
      fun q hq => hgood q (List.mem_cons_of_mem _ hq)
    simp only [List.length_cons] at hc hs
    have hpc1 : (st.packet_count + 1) % U32 = st.packet_count + 1 :=
      Nat.mod_eq_of_lt (by omega)
    by_cases hsel : st.packet_count % SEND_RATE = 0
    · have hone : 1 ≤ numSel st.packet_count (rest.length + 1) := by
        simp only [numSel, SEND_RATE] at hsel ⊢
        omega
      have hstep : numSel st.packet_count (rest.length + 1) =
          numSel (st.packet_count + 1) rest.length + 1 := by
        simp only [numSel, SEND_RATE] at hsel ⊢
        omega
      by_cases hsend : env.send_ok = true
      · have hsent1 : (st.sent_count + 1) % U32 = st.sent_count + 1 :=
          Nat.mod_eq_of_lt (by omega)
        simp only [runSniffer,
          step_selected_sent st f env hf.1 hsel hf.2.1 hf.2.2 hsend, hpc1, hsent1]
        have hrec := ih ⟨st.packet_count + 1, st.sent_count + 1, st.dropped_count⟩
          hgood' (by show st.packet_count + 1 + rest.length < U32; omega)
          (by show st.sent_count + 1 + st.dropped_count +
                numSel (st.packet_count + 1) rest.length < U32; omega)
        rw [hrec]
        show st.sent_count + 1 + st.dropped_count +
            numSel (st.packet_count + 1) rest.length =
          st.sent_count + st.dropped_count +
            numSel st.packet_count (rest.length + 1)
        omega
      · have hsend' : env.send_ok = false := by
          cases hb : env.send_ok
          · rfl
          · exact absurd hb hsend
        have hdrop1 : (st.dropped_count + 1) % U32 = st.dropped_count + 1 :=
          Nat.mod_eq_of_lt (by omega)
        simp only [runSniffer,
          step_selected_dropped st f env hf.1 hsel hf.2.1 hf.2.2 hsend', hpc1, hdrop1]
        have hrec := ih ⟨st.packet_count + 1, st.sent_count, st.dropped_count + 1⟩
          hgood' (by show st.packet_count + 1 + rest.length < U32; omega)
          (by show st.sent_count + (st.dropped_count + 1) +
                numSel (st.packet_count + 1) rest.length < U32; omega)
        rw [hrec]
        show st.sent_count + (st.dropped_count + 1) +
            numSel (st.packet_count + 1) rest.length =
          st.sent_count + st.dropped_count +
            numSel st.packet_count (rest.length + 1)
        omega
    · have hstep : numSel st.packet_count (rest.length + 1) =
          numSel (st.packet_count + 1) rest.length := by
        simp only [numSel, SEND_RATE] at hsel ⊢
        omega
      simp only [runSniffer, step_not_selected st f env hf.1 hsel, hpc1]
      have hrec := ih ⟨st.packet_count + 1, st.sent_count, st.dropped_count⟩
        hgood' (by show st.packet_count + 1 + rest.length < U32; omega)
        (by show st.sent_count + st.dropped_count +
              numSel (st.packet_count + 1) rest.length < U32; omega)
      rw [hrec]
      show st.sent_count + st.dropped_count +
          numSel (st.packet_count + 1) rest.length =
        st.sent_count + st.dropped_count +
          numSel st.packet_count (rest.length + 1)
      omega

/-- C4: over a run of N frames that pass the filters, starting from the
all-zero counters, with the sender installed and its lock uncontended at
every invocation (and N below the u32 wrap), the events counted as sent
plus the events counted as dropped equal the number of rate-limited
try_send attempts, which is ceil(N / 50) = floor(N / 50) or
floor(N / 50) + 1: exactly one in every 50 accepted frames triggers a
try_send and each attempt increments exactly one of the two counters. -/
theorem C4_sent_plus_dropped_rate (inputs : List (Frame × CbEnv))
    (hgood : AllGoodEnv inputs) (hN : inputs.length < U32) :
    (runSniffer initState inputs).1.sent_count +
      (runSniffer initState inputs).1.dropped_count =
      (inputs.length + 49) / 50 ∧
    ((inputs.length + 49) / 50 = inputs.length / 50 ∨
     (inputs.length + 49) / 50 = inputs.length / 50 + 1) := by
  have hns : numSel 0 inputs.length = (inputs.length + 49) / 50 := by
    simp only [numSel]
    omega
  have hsum := runSniffer_sum inputs initState hgood
    (by show 0 + inputs.length < U32; omega)
    (by show 0 + 0 + numSel 0 inputs.length < U32; rw [hns]; omega)
  constructor
  · rw [hsum]
    show 0 + 0 + numSel 0 inputs.length = (inputs.length + 49) / 50
    omega
  · omega

/-- C4 witness: a concrete run of three accepted frames with the channel
accepting yields sent + dropped = 1 = ceil(3 / 50). -/
theorem C4_sent_plus_dropped_rate_witness :
    (runSniffer initState
        (List.replicate 3 (demoFrame, ⟨true, true, true⟩))).1.sent_count +
      (runSniffer initState
        (List.replicate 3 (demoFrame, ⟨true, true, true⟩))).1.dropped_count =
      ((List.replicate 3 ((demoFrame, ⟨true, true, true⟩) : Frame × CbEnv)).length + 49) / 50 ∧
    (((List.replicate 3 ((demoFrame, ⟨true, true, true⟩) : Frame × CbEnv)).length + 49) / 50 =
        (List.replicate 3 ((demoFrame, ⟨true, true, true⟩) : Frame × CbEnv)).length / 50 ∨
     ((List.replicate 3 ((demoFrame, ⟨true, true, true⟩) : Frame × CbEnv)).length + 49) / 50 =
        (List.replicate 3 ((demoFrame, ⟨true, true, true⟩) : Frame × CbEnv)).length / 50 + 1) :=
  C4_sent_plus_dropped_rate (List.replicate 3 (demoFrame, ⟨true, true, true⟩))
    (fun p hp => by rw [List.eq_of_mem_replicate hp]; exact ⟨by decide, rfl, rfl⟩)
    (by decide)

/-- C9: a filtered-in frame selected by the rate limiter increments
exactly one of the sent/dropped counters when the sender slot lock is
acquired and a sender is installed; when the lock is contended or no
sender is installed, the packet counter still advances but neither
counter changes and no event is handed over, so sent + dropped
undercounts the selected frames (a concrete one-frame run with a
contended lock ends with sent + dropped = 0 while one frame was
selected). -/
theorem C9_lock_contention_loses_events (st : CbState) (f : Frame) (env : CbEnv)
    (hpass : passesFilters f = true) (hsel : st.packet_count % SEND_RATE = 0) :
    ((env.lock_ok = false ∨ env.sender_set = false) →
      promiscuous_rx_callback st f env =
        (⟨(st.packet_count + 1) % U32, st.sent_count, st.dropped_count⟩, none)) ∧
    (env.lock_ok = true → env.sender_set = true → st.sent_count + 1 < U32 →
      st.dropped_count + 1 < U32 →
      (promiscuous_rx_callback st f env).1.sent_count +
        (promiscuous_rx_callback st f env).1.dropped_count =
        st.sent_count + st.dropped_count + 1) ∧
    ((runSniffer initState [(demoFrame, ⟨false, true, true⟩)]).1.sent_count +
       (runSniffer initState [(demoFrame, ⟨false, true, true⟩)]).1.dropped_count = 0 ∧
     (runSniffer initState [(demoFrame, ⟨false, true, true⟩)]).1.packet_count = 1) := by
  refine ⟨?_, ?_, by decide, by decide⟩
  · intro h
    exact step_selected_blocked st f env hpass hsel h
  · intro hl hsen hs1 hd1
    by_cases hsend : env.send_ok = true
    · rw [step_selected_sent st f env hpass hsel hl hsen hsend]
      show (st.sent_count + 1) % U32 + st.dropped_count =
        st.sent_count + st.dropped_count + 1
      rw [Nat.mod_eq_of_lt hs1]
      omega
    · have hsend' : env.send_ok = false := by
        cases hb : env.send_ok
        · rfl
        · exact absurd hb hsend
      rw [step_selected_dropped st f env hpass hsel hl hsen hsend']
      show st.sent_count + (st.dropped_count + 1) % U32 =
        st.sent_count + st.dropped_count + 1
      rw [Nat.mod_eq_of_lt hd1]
      omega

/-- C9 witness: the theorem applied at a concrete state, frame and
environment: with the lock contended the counters other than the packet
counter are untouched and no event is produced; with everything
available exactly one counter advances. -/
theorem C9_lock_contention_loses_events_witness :
    promiscuous_rx_callback initState demoFrame ⟨false, true, true⟩ =
      (⟨(initState.packet_count + 1) % U32, initState.sent_count,
        initState.dropped_count⟩, none) ∧
    (promiscuous_rx_callback initState demoFrame ⟨true, true, true⟩).1.sent_count +
      (promiscuous_rx_callback initState demoFrame ⟨true, true, true⟩).1.dropped_count =
      initState.sent_count + initState.dropped_count + 1 :=
  ⟨(C9_lock_contention_loses_events initState demoFrame ⟨false, true, true⟩
      (by decide) (by decide)).1 (Or.inl rfl),
   (C9_lock_contention_loses_events initState demoFrame ⟨true, true, true⟩
      (by decide) (by decide)).2.1 rfl rfl (by decide) (by decide)⟩

theorem digitChar_mem_hexdigits (m : Nat) (h : m < 16) :
    Nat.digitChar m ∈ "0123456789abcdef".data := by
  interval_cases m <;> decide

theorem hexdigits_ne_rbrace : ∀ c ∈ "0123456789abcdef".data, c ≠ '\x7d' := by decide

theorem natCharsAux_mem (fuel : Nat) :
    ∀ (n : Nat) (acc : List Char) (c : Char), c ∈ natCharsAux fuel n acc →
      c ∈ acc ∨ ∃ m, m < 10 ∧ c = Nat.digitChar m := by
  induction fuel with
  | zero => intro n acc c hc; exact Or.inl hc
  | succ fuel ih =>
    intro n acc c hc
    simp only [natCharsAux] at hc
    by_cases h : n < 10
    · rw [if_pos h] at hc
      rcases List.mem_cons.mp hc with h1 | h2
      · exact Or.inr ⟨n, h, h1⟩
      · exact Or.inl h2
    · rw [if_neg h] at hc
      rcases ih (n / 10) (Nat.digitChar (n % 10) :: acc) c hc with h1 | h2
      · rcases List.mem_cons.mp h1 with h3 | h4
        · exact Or.inr ⟨n % 10, by omega, h3⟩
        · exact Or.inl h4
      · exact Or.inr h2

theorem natChars_ne_rbrace (n : Nat) (c : Char) (hc : c ∈ natChars n) :
    c ≠ '\x7d' := by
  rcases natCharsAux_mem (n + 1) n [] c hc with h1 | ⟨m, hm, rfl⟩
  · cases h1
  · exact hexdigits_ne_rbrace _ (digitChar_mem_hexdigits m (by omega))

theorem intChars_ne_rbrace (i : Int) (c : Char) (hc : c ∈ intChars i) :
    c ≠ '\x7d' := by
  simp only [intChars] at hc
  by_cases h : i < 0
  · rw [if_pos h] at hc
    rcases List.mem_cons.mp hc with h1 | h2
    · subst h1; decide
    · exact natChars_ne_rbrace _ c h2
  · rw [if_neg h] at hc
    exact natChars_ne_rbrace _ c hc

theorem macHexChars_length (l : List Nat) : (macHexChars l).length = 2 * l.length := by
  induction l with
  | nil => rfl
  | cons b rest ih =>
    have hcons : macHexChars (b :: rest) = byteHexChars b ++ macHexChars rest := rfl
    rw [hcons, List.length_append, ih]
    show 2 + 2 * rest.length = 2 * (rest.length + 1)
    omega

theorem macHexChars_mem_hex (l : List Nat) (hb : ∀ b ∈ l, b < 256) (c : Char)
    (hc : c ∈ macHexChars l) : c ∈ "0123456789abcdef".data := by
  simp only [macHexChars, List.mem_flatten] at hc
  obtain ⟨s, hs, hcs⟩ := hc
  rw [List.mem_map] at hs
  obtain ⟨b, hbl, rfl⟩ := hs
  rcases List.mem_cons.mp hcs with h1 | h2
  · subst h1
    exact digitChar_mem_hexdigits _ (by have := hb b hbl; omega)
  · rcases List.mem_cons.mp h2 with h3 | h4
    · subst h3
      exact digitChar_mem_hexdigits _ (by have := hb b hbl; omega)
    · cases h4

theorem macHexChars_ne_rbrace (l : List Nat) (hb : ∀ b ∈ l, b < 256) (c : Char)
    (hc : c ∈ macHexChars l) : c ≠ '\x7d' :=
  hexdigits_ne_rbrace c (macHexChars_mem_hex l hb c hc)

theorem payloadStr_body_brace (e : DeviceEvent) (sid : String) :
    payloadStr e sid = payloadBody e sid ++ ['\x7d'] := by
  have hsplit : "\"\x7d".data = "\"".data ++ ['\x7d'] := rfl
  simp only [payloadStr, payloadBody, hsplit, List.append_assoc]
  rfl

theorem payloadBody_no_rbrace (e : DeviceEvent) (sid : String)
    (hb : ∀ b ∈ e.mac_hash, b < 256) (hsid : '\x7d' ∉ sid.data) :
    '\x7d' ∉ payloadBody e sid := by
  intro hc
  simp only [payloadBody, List.mem_append] at hc
  rcases hc with ((((((((((h | h) | h) | h) | h) | h) | h) | h) | h) | h) | h)
  · exact absurd h (by decide)
  · exact absurd rfl (macHexChars_ne_rbrace e.mac_hash hb _ h)
  · exact absurd h (by decide)
  · exact absurd rfl (intChars_ne_rbrace _ _ h)
  · exact absurd h (by decide)
  · exact absurd rfl (natChars_ne_rbrace _ _ h)
  · exact absurd h (by decide)
  · exact absurd rfl (natChars_ne_rbrace _ _ h)
  · exact absurd h (by decide)
  · exact hsid h
  · exact absurd h (by decide)

theorem publish_event_eq (e : DeviceEvent) (sid : String) :
    publish_event e sid =
      ⟨MQTT_TOPIC_PREFIX ++ "/".data ++ sid.data ++ "/device".data, QoS.AtMostOnce,
       false, (payloadStr e sid).take (min (payloadStr e sid).length 200)⟩ := rfl

/-- C6 (amended): for every DeviceEvent whose mac_hash is 32 bytes, and
whose formatted JSON fits in the 200-byte buffer, publish_event enqueues
on topic sniffer/station-id/device with QoS at-most-once, retained false,
and the payload is exactly the UTF-8 JSON object with keys mac_hash,
rssi, channel, timestamp, station in that order, the mac_hash value being
64 lowercase hex characters.  (Without the 200-byte bound the payload is
truncated, see the counterexample.) -/
theorem C6_publish_contract (e : DeviceEvent) (sid : String)
    (hlen : e.mac_hash.length = 32) (hb : ∀ b ∈ e.mac_hash, b < 256)
    (hfit : (payloadStr e sid).length ≤ 200) :
    publish_event e sid =
      { topic := "sniffer/".data ++ sid.data ++ "/device".data
        qos := QoS.AtMostOnce
        retained := false
        payload := payloadStr e sid } ∧
    (macHexChars e.mac_hash).length = 64 ∧
    ∀ c ∈ macHexChars e.mac_hash, c ∈ "0123456789abcdef".data := by
  refine ⟨?_, ?_, fun c hc => macHexChars_mem_hex e.mac_hash hb c hc⟩
  · rw [publish_event_eq, min_eq_left hfit, List.take_length]
    rfl
  · rw [macHexChars_length, hlen]

set_option maxRecDepth 100000 in
set_option maxHeartbeats 1000000 in
/-- C6 witness: the theorem applied to a concrete event (32 zero bytes,
rssi -10, channel 1, timestamp 0) and the station id st1, whose JSON is
132 bytes long. -/
theorem C6_publish_contract_witness :
    publish_event e0demo "st1" =
      { topic := "sniffer/".data ++ ("st1" : String).data ++ "/device".data
        qos := QoS.AtMostOnce
        retained := false
        payload := payloadStr e0demo "st1" } ∧
    (macHexChars e0demo.mac_hash).length = 64 ∧
    ∀ c ∈ macHexChars e0demo.mac_hash, c ∈ "0123456789abcdef".data :=
  C6_publish_contract e0demo "st1" (by decide) (by decide) (by decide)

set_option maxRecDepth 100000 in
set_option maxHeartbeats 1000000 in
/-- C6 counterexample: with a 200-character station id the formatted JSON
is 329 bytes, the enqueued payload is its first 200 bytes only, so the
payload is not the full JSON object, refuting the claim for arbitrary
station ids. -/
theorem C6_long_station_truncates :
    (publish_event e0demo sidLong).payload.length = 200 ∧
    (payloadStr e0demo sidLong).length = 329 ∧
    (publish_event e0demo sidLong).payload ≠ payloadStr e0demo sidLong := by
  have h1 : (publish_event e0demo sidLong).payload.length = 200 := by decide
  have h2 : (payloadStr e0demo sidLong).length = 329 := by decide
  refine ⟨h1, h2, ?_⟩
  intro h
  have h3 := congrArg List.length h
  rw [h1, h2] at h3
  exact absurd h3 (by decide)

/-- C10: publish_event is a total function; its payload is always the
formatted JSON clamped to min(length, 200) bytes: when the JSON fits in
200 bytes the payload equals it, and when it exceeds 200 bytes the
payload is silently truncated to exactly the first 200 bytes, is no
longer the full JSON object, and (for a station id without a closing
brace) contains no closing brace at all, hence is not a complete JSON
object. -/
theorem C10_payload_clamped (e : DeviceEvent) (sid : String) :
    (publish_event e sid).payload =
      (payloadStr e sid).take (min (payloadStr e sid).length 200) ∧
    ((payloadStr e sid).length ≤ 200 →
      (publish_event e sid).payload = payloadStr e sid) ∧
    (200 < (payloadStr e sid).length →
      (publish_event e sid).payload.length = 200 ∧
      (publish_event e sid).payload ≠ payloadStr e sid) ∧
    (200 < (payloadStr e sid).length → '\x7d' ∉ sid.data →
      (∀ b ∈ e.mac_hash, b < 256) → '\x7d' ∉ (publish_event e sid).payload) := by
  simp only [publish_event_eq]
  refine ⟨trivial, ?_, ?_, ?_⟩
  · intro h
    rw [min_eq_left h, List.take_length]
  · intro h
    have hl : ((payloadStr e sid).take (min (payloadStr e sid).length 200)).length
        = 200 := by
      rw [List.length_take]
      omega
    refine ⟨hl, ?_⟩
    intro heq
    have h3 := congrArg List.length heq
    rw [hl] at h3
    omega
  · intro h hsid hb hc
    have hbody := payloadStr_body_brace e sid
    have hblen : 200 ≤ (payloadBody e sid).length := by
      have h4 := congrArg List.length hbody
      rw [List.length_append] at h4
      simp only [List.length_cons, List.length_nil] at h4
      omega
    rw [min_eq_right (le_of_lt h), hbody,
      List.take_append_of_le_length hblen] at hc
    exact payloadBody_no_rbrace e sid hb hsid (List.take_subset _ _ hc)

set_option maxRecDepth 100000 in
set_option maxHeartbeats 1000000 in
/-- C10 witness: with station id st1 the 132-byte JSON is published
whole; with the 200-character station id the payload is clamped to 200
bytes and contains no closing brace. -/
theorem C10_payload_clamped_witness :
    (publish_event e0demo "st1").payload = payloadStr e0demo "st1" ∧
    (publish_event e0demo sidLong).payload.length = 200 ∧
    '\x7d' ∉ (publish_event e0demo sidLong).payload :=
  ⟨(C10_payload_clamped e0demo "st1").2.1 (by decide),
   ((C10_payload_clamped e0demo sidLong).2.2.1 (by decide)).1,
   (C10_payload_clamped e0demo sidLong).2.2.2 (by decide) (by decide) (by decide)⟩
